import Mathlib

/-!
Verification of the timesheet assembler and productivity-insights engine of the
MCP-TimeSheet-POC repository (src/client.py, src/mcp_server.py, src/llm_service.py).

Shallow embedding conventions:
* Calendar dates are modeled as integers (days since an arbitrary epoch).  The source
  keys everything by the ISO date string, a strictly monotone bijective image of the
  day number, so date arithmetic (timedelta, comparisons, file names) maps to integer
  arithmetic.
* Python dicts built key-by-key are modeled as insertion-ordered association lists;
  Python sets used only through membership and len() are modeled as duplicate-free
  insertion-ordered lists.
* A dict field read with dict.get(k) is an Option field when the source distinguishes
  a missing value from a present one, and a plain String with "" standing for the
  missing value where the source only ever tests truthiness or defaults to "".
* The external fetchers, the JSON decoder and the LLM call are oracles: their results
  are inputs of the embedded functions, shaped exactly as the call sites inspect them.
* Python floats are idealized as exact rationals; round(x, 2) is embedded as
  half-to-even rounding at two decimals on rationals.
* String primitives used by the source (lower, strip, startswith, in, slicing,
  split) are embedded char-list-level for the ASCII data this system compares.
-/

/-- ASCII lowercasing of one character; models Python str.lower() on the ASCII
status and name strings this system compares. -/
def lowerChar (c : Char) : Char :=
  if 65 ≤ c.toNat ∧ c.toNat ≤ 90 then Char.ofNat (c.toNat + 32) else c

/-- Python str.lower(), char by char. -/
def pyLower (s : String) : String := ⟨s.data.map lowerChar⟩

/-- ASCII whitespace, the characters Python str.strip() removes from the data here. -/
def isPySpace (c : Char) : Bool := c = ' ' || c = '\t' || c = '\n' || c = '\r'

/-- Python str.strip(). -/
def pyStrip (s : String) : String :=
  ⟨((s.data.dropWhile isPySpace).reverse.dropWhile isPySpace).reverse⟩

/-- Python s[:n], the first n characters of s. -/
def pyTake (s : String) (n : Nat) : String := ⟨s.data.take n⟩

/-- Everything before the first newline; models msg.split(chr 10)[0]. -/
def firstLineData : List Char → List Char
  | [] => []
  | c :: cs => if c = '\n' then [] else c :: firstLineData cs

def firstLine (msg : String) : String := ⟨firstLineData msg.data⟩

/-- Does the char list s start with the char list pat. -/
def listStartsWithL : List Char → List Char → Bool
  | _, [] => true
  | [], _ :: _ => false
  | a :: as, b :: bs => a = b && listStartsWithL as bs

/-- Python s.startswith(pre). -/
def pyStartsWith (s pre : String) : Bool := listStartsWithL s.data pre.data

def strContainsAux (pat : List Char) : List Char → Bool
  | [] => listStartsWithL [] pat
  | c :: cs => listStartsWithL (c :: cs) pat || strContainsAux pat cs

/-- Python substring membership, pat in s. -/
def strContains (s pat : String) : Bool := strContainsAux pat.data s.data

/-- An issue-tracker entry as stored in a daily snapshot (the dicts produced by
get_jira_activity in mcp_server.py and consumed by client.py).  key and status use
"" for a missing value (the source only tests their truthiness or defaults to "");
project keeps the missing/present distinction because client.py defaults it two
different ways (project_key in rows, "Unknown" in insights). -/
structure JiraEntry where
  key : String
  summary : String
  description : String
  status : String
  project : Option String
deriving DecidableEq, Repr

/-- A source-control activity entry as stored in a daily snapshot.  The fetcher
(get_github_activity in mcp_server.py) writes the repository name under the dict key
"repo" and never writes a key "repository"; both possible keys are modeled so that
the consumer's gh.get("repository", "Unknown") lookup can be embedded faithfully. -/
structure GithubEntry where
  type : String
  repo : Option String
  repository : Option String
  key : String
  summary : String
  description : String
deriving DecidableEq, Repr

/-- Embeds the commit-entry construction of get_github_activity (mcp_server.py
lines 215-225): the repository name goes under "repo", summary is the first line of
the commit message, key is the sha.  No "repository" key is produced. -/
def mkCommitEntry (repo sha msg : String) : GithubEntry :=
  { type := "Commit", repo := some repo, repository := none,
    key := sha, summary := firstLine msg, description := msg }

/-- One persisted daily snapshot, the JSON object written to
logs/activity_{date}.json by fetch_timesheet_data. -/
structure DayLog where
  jira : List JiraEntry
  github : List GithubEntry
  rawJira : String
  rawGithub : String
deriving DecidableEq, Repr

/-- The logs directory: snapshots keyed by day number.  Writing prepends, reading
takes the most recent write for a date, so a write fully replaces any earlier
snapshot for the same date. -/
abbrev Store := List (Int × DayLog)

def Store.get (σ : Store) (d : Int) : Option DayLog :=
  (List.find? (fun p => p.1 == d) σ).map Prod.snd

def Store.put (σ : Store) (d : Int) (log : DayLog) : Store := (d, log) :: σ

/-- One assembled timesheet row (the dict appended to timesheet_data). -/
structure TimesheetRow where
  date : Int
  project : String
  task : String
  taskDescription : String
  status : String
  remark : String
deriving DecidableEq, Repr

/-- get_dates_in_range of client.py: all dates from start_date to end_date
inclusive, ascending; empty when end_date precedes start_date. -/
def get_dates_in_range (start_date end_date : Int) : List Int :=
  (List.range (end_date - start_date + 1).toNat).map (fun (i : Nat) => start_date + (i : Int))

/-- find_last_in_progress_task of client.py: scan the stored snapshots of the
lookback_days prior calendar days, nearest first, and return the first issue entry
whose status lowercases to "in progress". -/
def find_last_in_progress_task (σ : Store) (current_date : Int)
    (lookback_days : Nat := 5) : Option JiraEntry :=
  (List.range lookback_days).findSome? (fun (i : Nat) =>
    match Store.get σ (current_date - ((i : Int) + 1)) with
    | none => none
    | some log => log.jira.find? (fun e => pyLower e.status == "in progress"))

/-- The priority ranking of client.py lines 159-166: rank 0 for completed-like
statuses (case-insensitive), rank 1 for "in progress", rank 2 otherwise. -/
def get_priority (e : JiraEntry) : Nat :=
  let status := pyLower e.status
  if status ∈ ["done", "completed", "verified", "closed", "resolved"] then 0
  else if status = "in progress" then 1
  else 2

/-- Stable insertion of e after every element of at most equal priority; one step of
a stable sort by get_priority. -/
def insertByPriority (e : JiraEntry) : List JiraEntry → List JiraEntry
  | [] => [e]
  | b :: bs =>
    if get_priority b ≤ get_priority e then b :: insertByPriority e bs
    else e :: b :: bs

/-- The stable sort by get_priority performed by daily_jira_entries.sort
(Python list.sort is stable; a stable sort by a key is unique, so insertion
sort is an exact embedding). -/
def sortByPriority (l : List JiraEntry) : List JiraEntry :=
  l.foldl (fun acc e => insertByPriority e acc) []

/-- What json.loads produced for a raw content string, as far as the call sites
inspect it: a JSON list of entry-shaped objects, or any other JSON document. -/
inductive Parsed (α : Type) where
  | jsonList (entries : List α)
  | otherJson
deriving DecidableEq

/-- Outcome of one tool call as the client sees it: the call raised, or it returned
a content string together with what json.loads makes of that string (none when the
string is not valid JSON). -/
inductive FetchOutcome (α : Type) where
  | exn (msg : String)
  | ok (content : String) (decoded : Option (Parsed α))
deriving DecidableEq

/-- The per-source handling of client.py lines 101-140: an exception becomes an
"Error: ..." raw string and no entries; returned content is parsed only when it does
not start with "Error" and does not contain the no-activity marker, and only a JSON
list yields entries.  Returns (entry list, raw content recorded in the snapshot). -/
def processSource {α : Type} (noActivityMark : String) :
    FetchOutcome α → List α × String
  | .exn msg => ([], "Error: " ++ msg)
  | .ok content decoded =>
    if !(pyStartsWith content "Error") && !(strContains content noActivityMark) then
      match decoded with
      | some (.jsonList entries) => (entries, content)
      | _ => ([], content)
    else ([], content)

/-- The LLM context built from the selected issue entry (client.py line 174):
key, summary, and the description truncated to 500 characters. -/
def jira_context_of (selected : Option JiraEntry) : String :=
  match selected with
  | some e => e.key ++ ": " ++ e.summary ++ "\nDescription: " ++ pyTake e.description 500
  | none => ""

/-- The LLM context built from the day's vcs entries (client.py line 178):
their summaries as newline-joined bullets, empty when there are none. -/
def github_context_of (entries : List GithubEntry) : String :=
  match entries with
  | [] => ""
  | _ => String.intercalate "\n" (entries.map (fun i => "- " ++ i.summary))

/-- The body of the per-date loop of fetch_timesheet_data (client.py lines 101-227):
process both sources, persist the snapshot, select the canonical issue entry,
summarize, and build exactly one timesheet row, with row priority
issue entry > vcs-only synthetic row > carry-forward > no-activity sentinel.
Returns the store after the save together with the row. -/
def processDate (summ : String → String → Int → String) (project_key : String)
    (jiraOut : FetchOutcome JiraEntry) (ghOut : FetchOutcome GithubEntry)
    (σ : Store) (date : Int) : Store × TimesheetRow :=
  let pj := processSource "No Jira activity" jiraOut
  let pg := processSource "No GitHub activity" ghOut
  let daily_jira_entries := pj.1
  let daily_github_entries := pg.1
  let σ' := Store.put σ date ⟨daily_jira_entries, daily_github_entries, pj.2, pg.2⟩
  let selected_entry := (sortByPriority daily_jira_entries).head?
  let jira_context := jira_context_of selected_entry
  let github_context := github_context_of daily_github_entries
  let daily_summary :=
    if selected_entry.isSome ∨ github_context ≠ "" then
      summ jira_context github_context date
    else ""
  let row : TimesheetRow :=
    match selected_entry with
    | some e =>
      { date := date, project := e.project.getD project_key, task := e.summary,
        taskDescription := e.description, status := e.status, remark := daily_summary }
    | none =>
      if github_context ≠ "" then
        { date := date, project := "GitHub/General",
          task := "General Development Activities",
          taskDescription := "See Remarks for details.", status := "Completed",
          remark := daily_summary }
      else
        match find_last_in_progress_task σ' date with
        | some t =>
          { date := date, project := t.project.getD project_key, task := t.summary,
            taskDescription := t.description, status := "In Progress",
            remark := "Continuing work on " ++ t.summary ++ "." }
        | none =>
          { date := date, project := "N/A", task := "N/A",
            taskDescription := "No GitHub activity / work found", status := "N/A",
            remark := "No activity found." }
  (σ', row)

/-- fetch_timesheet_data of client.py: process every date of the range in ascending
order, threading the log store and appending one row per date.  The dates list is
reversed and then sorted in the source, i.e. processed ascending.  Returns the final
store and the rows in processing order. -/
def fetch_timesheet_data (summ : String → String → Int → String) (project_key : String)
    (jiraFetch : Int → FetchOutcome JiraEntry) (ghFetch : Int → FetchOutcome GithubEntry)
    (σ₀ : Store) (start_date end_date : Int) : Store × List TimesheetRow :=
  (get_dates_in_range start_date end_date).foldl
    (fun acc date =>
      let r := processDate summ project_key (jiraFetch date) (ghFetch date) acc.1 date
      (r.1, acc.2 ++ [r.2]))
    (σ₀, [])

/-- Stable insertion of r after every element of at least equal date; one step of the
stable descending sort data.sort(key date, reverse True) of get_data. -/
def insertByDateDesc (r : TimesheetRow) : List TimesheetRow → List TimesheetRow
  | [] => [r]
  | b :: bs =>
    if r.date ≤ b.date then b :: insertByDateDesc r bs
    else r :: b :: bs

def sortRowsDesc (l : List TimesheetRow) : List TimesheetRow :=
  l.foldl (fun acc r => insertByDateDesc r acc) []

/-- get_data of client.py lines 238-243: fetch the rows, then sort them by date
descending for display. -/
def get_data (summ : String → String → Int → String) (project_key : String)
    (jiraFetch : Int → FetchOutcome JiraEntry) (ghFetch : Int → FetchOutcome GithubEntry)
    (σ₀ : Store) (start_date end_date : Int) : List TimesheetRow :=
  sortRowsDesc (fetch_timesheet_data summ project_key jiraFetch ghFetch σ₀ start_date end_date).2

/-- The prompt string built by summarize_activity (llm_service.py lines 26-36). -/
def buildPrompt (jira_content github_content : String) (date : Int) : String :=
  "\n    Create a concise daily timesheet summary for the following activities on "
    ++ toString date ++ ".\n    \n    Jira Activity:\n    " ++ jira_content
    ++ "\n    \n    GitHub Activity:\n    " ++ github_content
    ++ "\n    \n    Format the output as a single paragraph describing the work done.\n    "

/-- summarize_activity of llm_service.py: configured says whether an LLM client
exists; llmCall is the chat-completion call, returning the reply content or the
exception message.  On success the stripped content is returned; on failure the
fallback embeds the error and the first 50 characters of each context. -/
def summarize_activity (configured : Bool) (llmCall : String → Except String String)
    (jira_content github_content : String) (date : Int) : String :=
  if !configured then "LLM not configured. Raw Data gathered."
  else
    match llmCall (buildPrompt jira_content github_content date) with
    | .ok content => pyStrip content
    | .error e =>
      "LLM Error: " ++ e ++ ". Raw Data: " ++ pyTake jira_content 50 ++ "... "
        ++ pyTake github_content 50 ++ "..."

/-- _normalize_jira_status of client.py: (status or "").strip().lower(). -/
def _normalize_jira_status (status : String) : String := pyLower (pyStrip status)

/-- Python d[k] = d.get(k, 0) + 1 on an insertion-ordered dict. -/
def bump : List (String × Nat) → String → List (String × Nat)
  | [], k => [(k, 1)]
  | (k', v) :: rest, k =>
    if k' = k then (k', v + 1) :: rest else (k', v) :: bump rest k

/-- Python set.add on a set modeled as a duplicate-free insertion-ordered list. -/
def insertSet (l : List String) (k : String) : List String :=
  if k ∈ l then l else l ++ [k]

/-- Python d[k] = v on an insertion-ordered dict keyed by date. -/
def setAssocInt (m : List (Int × Nat)) (k : Int) (v : Nat) : List (Int × Nat) :=
  if m.any (fun p => p.1 == k) then
    m.map (fun p => if p.1 == k then (p.1, v) else p)
  else m ++ [(k, v)]

/-- The per-ticket tracking record of in_progress_durations in
generate_productivity_insights. -/
structure TicketInfo where
  first_seen : Int
  last_seen : Int
  statuses : List String
deriving DecidableEq, Repr

/-- The update of in_progress_durations for one observed (key, date, status):
create the record on first sight, then set last_seen and add the status. -/
def updateDurations (m : List (String × TicketInfo)) (k : String) (d : Int)
    (st : String) : List (String × TicketInfo) :=
  let m1 := if m.any (fun p => p.1 == k) then m else m ++ [(k, ⟨d, d, []⟩)]
  m1.map (fun p =>
    if p.1 == k then (p.1, ⟨p.2.first_seen, d, insertSet p.2.statuses st⟩) else p)

/-- Accumulator of the per-day loop over jira entries (client.py lines 316-330). -/
structure JiraAcc where
  jira_projects : List (String × Nat)
  daily_projects : List String
  durations : List (String × TicketInfo)
deriving DecidableEq

/-- One jira entry of the day (client.py lines 317-330): an entry with a falsy key
is skipped entirely; otherwise its project (default "Unknown") is added to the daily
set and the project counter, and its ticket record is created/updated. -/
def jiraStep (date : Int) (acc : JiraAcc) (j : JiraEntry) : JiraAcc :=
  if j.key = "" then acc
  else
    let project := j.project.getD "Unknown"
    let daily_projects := insertSet acc.daily_projects project
    let jira_projects := bump acc.jira_projects project
    let status := _normalize_jira_status j.status
    let durations := updateDurations acc.durations j.key date status
    ⟨jira_projects, daily_projects, durations⟩

/-- One vcs entry of the day (client.py lines 311-314): the repo is read from the
dict key "repository" with default "Unknown" (the fetcher writes the name under
"repo", so this lookup always falls back to "Unknown" on fetched data). -/
def githubStep (acc : List String × List (String × Nat)) (gh : GithubEntry) :
    List String × List (String × Nat) :=
  let repo := gh.repository.getD "Unknown"
  (insertSet acc.1 repo, bump acc.2 repo)

/-- The mutable accumulators of generate_productivity_insights, initialized before
the date loop (client.py lines 266-281). -/
structure EngState where
  commits_per_day : List (Int × Nat)
  total_commits : Nat
  commits_per_repo : List (String × Nat)
  jira_projects : List (String × Nat)
  durations : List (String × TicketInfo)
  active_days : Nat
  streak : Nat
  longest : Nat
  context_days : List Int
deriving DecidableEq

def initEngState : EngState := ⟨[], 0, [], [], [], 0, 0, 0, []⟩

/-- The accumulation half of the date-loop body (client.py lines 307-333): record
the day's commit count, fold the vcs entries into the repo counters, fold the issue
entries into the project counters and ticket records, and test the
context-switching condition |daily repos| + |daily projects| > 2. -/
def dayStepAccum (st : EngState) (date : Int) (jira_entries : List JiraEntry)
    (github_entries : List GithubEntry) : EngState :=
  let st :=
    { st with
      commits_per_day := setAssocInt st.commits_per_day date github_entries.length,
      total_commits := st.total_commits + github_entries.length }
  let gh := github_entries.foldl githubStep ([], st.commits_per_repo)
  let st := { st with commits_per_repo := gh.2 }
  let ja := jira_entries.foldl (jiraStep date) ⟨st.jira_projects, [], st.durations⟩
  let st := { st with jira_projects := ja.jira_projects, durations := ja.durations }
  if gh.1.length + ja.daily_projects.length > 2 then
    { st with context_days := st.context_days ++ [date] }
  else st

/-- The body of the date loop of generate_productivity_insights (client.py lines
285-333): default the day's commit count to 0; a missing snapshot extends the
inactivity streak; a present snapshot with no entries of either kind also extends
it, any other snapshot counts as an active day and resets it; then the day's
entries are accumulated by dayStepAccum. -/
def dayStep (logs : List (Int × DayLog)) (st : EngState) (date : Int) : EngState :=
  let st := { st with commits_per_day := setAssocInt st.commits_per_day date 0 }
  match List.find? (fun l => l.1 == date) logs with
  | none =>
    let streak := st.streak + 1
    { st with streak := streak, longest := max st.longest streak }
  | some dl =>
    let st :=
      if dl.2.jira.isEmpty ∧ dl.2.github.isEmpty then
        let streak := st.streak + 1
        { st with streak := streak, longest := max st.longest streak }
      else
        { st with active_days := st.active_days + 1, streak := 0 }
    dayStepAccum st date dl.2.jira dl.2.github

/-- _load_logs_in_range of client.py: the stored snapshots of the range's dates, in
date order, each tagged with its date. -/
def _load_logs_in_range (σ : Store) (start_date end_date : Int) : List (Int × DayLog) :=
  (get_dates_in_range start_date end_date).filterMap
    (fun d => (Store.get σ d).map (fun log => (d, log)))

/-- Python round-half-to-even to an integer, on exact rationals (the idealization of
Python round on floats used throughout this embedding). -/
def rhe (x : ℚ) : ℤ :=
  if Int.fract x < 1 / 2 then ⌊x⌋
  else if 1 / 2 < Int.fract x then ⌊x⌋ + 1
  else if ⌊x⌋ % 2 = 0 then ⌊x⌋ else ⌊x⌋ + 1

/-- Python round(x, 2). -/
def pyRound2 (x : ℚ) : ℚ := (rhe (100 * x) : ℚ) / 100

/-- The completed-status set of client.py line 337. -/
def completed_statuses : List String := ["done", "closed", "resolved", "verified", "completed"]

/-- The classification loop over in_progress_durations (client.py lines 340-350):
completed count, in-progress count, and the list of per-ticket active-day spans. -/
def classifyTickets (durations : List (String × TicketInfo)) : Nat × Nat × List Int :=
  durations.foldl
    (fun acc p =>
      let statuses := p.2.statuses
      let counts :=
        if statuses.any (fun s => s ∈ completed_statuses) then (acc.1 + 1, acc.2.1)
        else if "in progress" ∈ statuses then (acc.1, acc.2.1 + 1)
        else (acc.1, acc.2.1)
      (counts.1, counts.2, acc.2.2 ++ [p.2.last_seen - p.2.first_seen + 1]))
    (0, 0, [])

/-- The report of generate_productivity_insights, flattened: the source returns a
nested dict with sections commit_metrics, jira_metrics, distribution, consistency
and raw_counts; each field here is one leaf of that dict. -/
structure InsightsReport where
  total_commits : Nat
  commits_per_day : List (Int × Nat)
  commits_per_repo : List (String × Nat)
  total_tickets_touched : Nat
  tickets_completed : Nat
  tickets_in_progress : Nat
  average_days_active : ℚ
  project_distribution_percent : List (String × ℚ)
  repo_distribution_percent : List (String × ℚ)
  active_days : Nat
  longest_inactivity_streak_days : Nat
  context_switching_days : Nat
  total_jira_updates : Nat
  total_github_updates : Nat
deriving DecidableEq

/-- The aggregation after the date loop (client.py lines 335-389). -/
def finalizeReport (st : EngState) : InsightsReport :=
  let cl := classifyTickets st.durations
  let in_progress_times := cl.2.2
  let avg_time_in_progress : ℚ :=
    if in_progress_times.isEmpty then 0
    else (in_progress_times.map (fun (t : Int) => (t : ℚ))).sum / (in_progress_times.length : ℚ)
  let total_jira_activity := (st.jira_projects.map Prod.snd).sum
  let project_distribution :=
    if total_jira_activity = 0 then []
    else st.jira_projects.map
      (fun p => (p.1, pyRound2 ((p.2 : ℚ) / (total_jira_activity : ℚ) * 100)))
  let total_gh_activity := st.total_commits
  let repo_distribution :=
    if total_gh_activity = 0 then []
    else st.commits_per_repo.map
      (fun p => (p.1, pyRound2 ((p.2 : ℚ) / (total_gh_activity : ℚ) * 100)))
  { total_commits := st.total_commits
    commits_per_day := st.commits_per_day
    commits_per_repo := st.commits_per_repo
    total_tickets_touched := st.durations.length
    tickets_completed := cl.1
    tickets_in_progress := cl.2.1
    average_days_active := pyRound2 avg_time_in_progress
    project_distribution_percent := project_distribution
    repo_distribution_percent := repo_distribution
    active_days := st.active_days
    longest_inactivity_streak_days := st.longest
    context_switching_days := st.context_days.length
    total_jira_updates := total_jira_activity
    total_github_updates := total_gh_activity }

/-- generate_productivity_insights of client.py: load the stored snapshots of the
range, scan the range's dates in chronological order accumulating the metrics, and
aggregate them into the report. -/
def generate_productivity_insights (σ : Store) (start_date end_date : Int) :
    InsightsReport :=
  let logs := _load_logs_in_range σ start_date end_date
  let dates := get_dates_in_range start_date end_date
  finalizeReport (dates.foldl (dayStep logs) initEngState)

/-- The minimum get_priority over a list (2, the largest possible rank, when empty). -/
def minPriority (l : List JiraEntry) : Nat :=
  l.foldl (fun m e => min m (get_priority e)) 2

/-- The raw text the snapshot records for a fetch outcome: the exception message
prefixed with "Error: " when the call raised, the returned content otherwise. -/
def expectedRaw {α : Type} : FetchOutcome α → String
  | .exn msg => "Error: " ++ msg
  | .ok content _ => content

/-- A fetch outcome that yields no entries for its date: the call raised, or the
content is an error marker or a no-activity marker, or it is not a JSON list. -/
def failsParse {α : Type} (noActivityMark : String) : FetchOutcome α → Prop
  | .exn _ => True
  | .ok content decoded =>
    pyStartsWith content "Error" = true ∨ strContains content noActivityMark = true ∨
      decoded = none ∨ decoded = some Parsed.otherJson

/-- Does the stored snapshot of day d hold some issue entry whose status lowercases
to "in progress". -/
def has_in_progress (σ : Store) (d : Int) : Bool :=
  match Store.get σ d with
  | none => false
  | some log => log.jira.any (fun e => pyLower e.status == "in progress")

/-- The first issue entry of day d's stored snapshot whose status lowercases to
"in progress". -/
def first_in_progress (σ : Store) (d : Int) : Option JiraEntry :=
  match Store.get σ d with
  | none => none
  | some log => log.jira.find? (fun e => pyLower e.status == "in progress")

/-- Is day d inactive for the insights engine: no stored snapshot, or a snapshot
with zero entries of both kinds. -/
def inactiveDay (σ : Store) (d : Int) : Bool :=
  match Store.get σ d with
  | none => true
  | some log => log.jira.isEmpty && log.github.isEmpty

/-- Length of the leading run of trues. -/
def leadRun : List Bool → Nat
  | [] => 0
  | b :: bs => if b then leadRun bs + 1 else 0

/-- Modelled from the spec: the longest run of consecutive true flags, defined
structurally as the maximum leading-run length over all suffixes. -/
def specLongestRun : List Bool → Nat
  | [] => 0
  | b :: bs => max (leadRun (b :: bs)) (specLongestRun bs)

/-- Run-length fold with an incoming run of length s (proof device relating the
engine's streak counter to specLongestRun). -/
def carryRun (s : Nat) : List Bool → Nat
  | [] => s
  | b :: bs => if b then carryRun (s + 1) bs else max s (carryRun 0 bs)

/-- Sum of the values of an association list of percentages. -/
def sumValues (m : List (String × ℚ)) : ℚ := (m.map Prod.snd).sum

/-- Failing input for C1: one stored day whose two vcs entries were produced by the
fetcher for repos "A" and "B" (so their repository names sit under the "repo" key). -/
def c1Store : Store :=
  [(0, ⟨[], [mkCommitEntry "A" "sha1" "m1", mkCommitEntry "B" "sha2" "m2"], "[]", "[]"⟩)]

/-- Failing input for C2: day 0 touches fetched repos A and B plus jira project P
(3 distinct sources, which the claim counts as context switching); day 1 touches
only repo A and project P. -/
def c2Store : Store :=
  [(0, ⟨[⟨"K1", "s", "", "In Progress", some "P"⟩],
        [mkCommitEntry "A" "sha1" "m1", mkCommitEntry "B" "sha2" "m2"], "[]", "[]"⟩),
   (1, ⟨[⟨"K2", "s", "", "In Progress", some "P"⟩],
        [mkCommitEntry "A" "sha3" "m3"], "[]", "[]"⟩)]

/-- The streak example of C8: a 5-day range with activity stored for days 1 and 5
and nothing stored for days 2-4. -/
def c8Store : Store :=
  [(1, ⟨[⟨"K1", "s", "", "Done", some "P"⟩], [], "[]", "[]"⟩),
   (5, ⟨[], [mkCommitEntry "A" "sha" "m"], "[]", "[]"⟩)]

/-- Counterexample input for C9: one stored day with 32 issue entries, each with its
own single-character key and project, so each of the 32 projects holds exactly
1/32 = 3.125 percent and round(3.125, 2) = 3.12 loses 0.005 per project. -/
def c9Store : Store :=
  [(0, ⟨(List.range 32).map (fun i =>
      ⟨String.mk [Char.ofNat (65 + i)], "", "", "Open",
       some (String.mk [Char.ofNat (65 + i)])⟩), [], "[]", "[]"⟩)]

/-- C1: the claim says commit_metrics.commits_per_repo maps each vcs entry's repo
field value (the field the fetcher writes as "repo") to its entry count.  The code
reads the key "repository", which the fetcher never writes, so on fetcher-produced
snapshots every entry lands under the fallback key "Unknown": for a day with one
commit entry in repo A and one in repo B the report holds [("Unknown", 2)] instead
of [("A", 1), ("B", 1)]. -/
theorem commits_per_repo_ignores_repo_field :
    (generate_productivity_insights c1Store 0 0).commits_per_repo = [("Unknown", 2)]
      ∧ (Store.get c1Store 0).map (fun log => log.github.map GithubEntry.repo)
          = some [some "A", some "B"]
      ∧ (Store.get c1Store 0).map (fun log => log.github.map GithubEntry.repository)
          = some [none, none] :=
  ⟨by decide, by decide, by decide⟩

/-- C2: the claim says a day whose vcs entries touch fetched repos A and B and whose
issue entries touch project P (3 distinct sources) is counted as a context-switching
day.  Because the code reads the vcs repo from the absent "repository" key, the
distinct-repo set of every day collapses to at most the singleton set holding
"Unknown", so such a day scores 1 + 1 = 2, not above 2, and is not counted: the
report for that store shows zero context-switching days. -/
theorem context_switching_ignores_repos :
    (generate_productivity_insights c2Store 0 1).context_switching_days = 0
      ∧ (Store.get c2Store 0).map
          (fun log => (log.github.map GithubEntry.repo, log.jira.map JiraEntry.project))
          = some ([some "A", some "B"], [some "P"]) :=
  ⟨by decide, by decide⟩

theorem get_priority_le_two (e : JiraEntry) : get_priority e ≤ 2 := by
  unfold get_priority
  dsimp only
  split
  · omega
  · split <;> omega

theorem foldlMin_le_init (l : List JiraEntry) (init : Nat) :
    l.foldl (fun m e => min m (get_priority e)) init ≤ init := by
  induction l generalizing init with
  | nil => simp
  | cons a l ih =>
    simp only [List.foldl_cons]
    exact le_trans (ih _) (min_le_left _ _)

theorem foldlMin_le_mem {l : List JiraEntry} {e : JiraEntry} (he : e ∈ l) (init : Nat) :
    l.foldl (fun m x => min m (get_priority x)) init ≤ get_priority e := by
  induction l generalizing init with
  | nil => cases he
  | cons a l ih =>
    simp only [List.foldl_cons]
    rcases List.mem_cons.mp he with h | h
    · subst h
      exact le_trans (foldlMin_le_init _ _) (min_le_right _ _)
    · exact ih h _

theorem minPriority_le_mem {l : List JiraEntry} {e : JiraEntry} (he : e ∈ l) :
    minPriority l ≤ get_priority e := foldlMin_le_mem he 2

theorem minPriority_append (l : List JiraEntry) (e : JiraEntry) :
    minPriority (l ++ [e]) = min (minPriority l) (get_priority e) := by
  unfold minPriority
  rw [List.foldl_append]
  rfl

theorem length_insertByPriority (e : JiraEntry) (l : List JiraEntry) :
    (insertByPriority e l).length = l.length + 1 := by
  induction l with
  | nil => rfl
  | cons b bs ih =>
    simp only [insertByPriority]
    by_cases h : get_priority b ≤ get_priority e
    · rw [if_pos h]
      simp [ih]
    · rw [if_neg h]
      simp

theorem length_sort_fold (l acc : List JiraEntry) :
    (l.foldl (fun a e => insertByPriority e a) acc).length = acc.length + l.length := by
  induction l generalizing acc with
  | nil => simp
  | cons a l ih =>
    simp only [List.foldl_cons, List.length_cons]
    rw [ih, length_insertByPriority]
    omega

theorem length_sortByPriority (l : List JiraEntry) :
    (sortByPriority l).length = l.length := by
  have := length_sort_fold l []
  simpa [sortByPriority] using this

theorem head?_insertByPriority_cons (e b : JiraEntry) (bs : List JiraEntry) :
    (insertByPriority e (b :: bs)).head? =
      some (if get_priority b ≤ get_priority e then b else e) := by
  simp only [insertByPriority]
  by_cases h : get_priority b ≤ get_priority e
  · rw [if_pos h, if_pos h]
    rfl
  · rw [if_neg h, if_neg h]
    rfl

theorem sortByPriority_append (l : List JiraEntry) (e : JiraEntry) :
    sortByPriority (l ++ [e]) = insertByPriority e (sortByPriority l) := by
  unfold sortByPriority
  rw [List.foldl_append]
  rfl

/-- C3: the task selector returns none on an empty list, and otherwise the first
element of a stable sort by rank, i.e. the earliest element of minimal get_priority
rank: rank 0 for the completed set, 1 for "in progress", 2 otherwise, ties keeping
the original fetch order.  As a pure function it is the same on every call. -/
theorem task_selector_stable :
    (sortByPriority ([] : List JiraEntry)).head? = none
    ∧ ∀ l : List JiraEntry,
        (sortByPriority l).head? = l.find? (fun e => get_priority e == minPriority l) := by
  refine ⟨rfl, ?_⟩
  intro l
  induction l using List.reverseRecOn with
  | nil => rfl
  | append_singleton l e ih =>
    rw [sortByPriority_append]
    cases hl : sortByPriority l with
    | nil =>
      have hl0 : l = [] := by
        have hlen := length_sortByPriority l
        rw [hl] at hlen
        exact List.length_eq_zero.mp hlen.symm
      subst hl0
      have hm : minPriority [e] = get_priority e := by
        unfold minPriority
        simp only [List.foldl_cons, List.foldl_nil]
        exact min_eq_right (get_priority_le_two e)
      rw [List.nil_append, hm]
      simp [insertByPriority, List.find?]
    | cons b bs =>
      have hb : l.find? (fun x => get_priority x == minPriority l) = some b := by
        rw [← ih, hl]
        rfl
      have hbp : get_priority b = minPriority l := by
        have hfs := List.find?_some hb
        simpa [beq_iff_eq] using hfs
      rw [head?_insertByPriority_cons]
      by_cases hle : minPriority l ≤ get_priority e
      · rw [if_pos (hbp ▸ hle)]
        rw [minPriority_append, min_eq_left hle]
        rw [List.find?_append, hb]
        rfl
      · have hlt : get_priority e < minPriority l := Nat.lt_of_not_le hle
        rw [if_neg (by omega : ¬ get_priority b ≤ get_priority e)]
        rw [minPriority_append, min_eq_right (le_of_lt hlt)]
        rw [List.find?_append]
        have hnone : l.find? (fun x => get_priority x == get_priority e) = none := by
          rw [List.find?_eq_none]
          intro x hx
          have h1 := minPriority_le_mem hx
          simp only [beq_iff_eq]
          omega
        rw [hnone]
        simp [List.find?]

theorem processDate_date (summ : String → String → Int → String) (pk : String)
    (jo : FetchOutcome JiraEntry) (go : FetchOutcome GithubEntry) (σ : Store) (d : Int) :
    (processDate summ pk jo go σ d).2.date = d := by
  simp only [processDate]
  split
  · rfl
  · split
    · rfl
    · split <;> rfl

theorem fetch_fold_dates (summ : String → String → Int → String) (pk : String)
    (jiraFetch : Int → FetchOutcome JiraEntry) (ghFetch : Int → FetchOutcome GithubEntry)
    (ds : List Int) (σ : Store) (acc : List TimesheetRow) :
    ((ds.foldl
        (fun acc date =>
          let r := processDate summ pk (jiraFetch date) (ghFetch date) acc.1 date
          (r.1, acc.2 ++ [r.2]))
        (σ, acc)).2).map TimesheetRow.date = acc.map TimesheetRow.date ++ ds := by
  induction ds generalizing σ acc with
  | nil => simp
  | cons d ds ih =>
    simp only [List.foldl_cons]
    rw [ih]
    simp [processDate_date]

theorem fetch_timesheet_data_dates (summ : String → String → Int → String) (pk : String)
    (jiraFetch : Int → FetchOutcome JiraEntry) (ghFetch : Int → FetchOutcome GithubEntry)
    (σ₀ : Store) (s e : Int) :
    ((fetch_timesheet_data summ pk jiraFetch ghFetch σ₀ s e).2).map TimesheetRow.date
      = get_dates_in_range s e := by
  unfold fetch_timesheet_data
  have h := fetch_fold_dates summ pk jiraFetch ghFetch (get_dates_in_range s e) σ₀ []
  simpa using h

theorem insertByDateDesc_front (r : TimesheetRow) (acc : List TimesheetRow)
    (h : ∀ b ∈ acc, b.date < r.date) :
    insertByDateDesc r acc = r :: acc := by
  cases acc with
  | nil => rfl
  | cons b bs =>
    have hb : b.date < r.date := h b (List.mem_cons_self b bs)
    simp only [insertByDateDesc]
    rw [if_neg (by omega : ¬ r.date ≤ b.date)]

theorem sort_fold_of_ascending (l acc : List TimesheetRow)
    (hp : (l.map TimesheetRow.date).Pairwise (· < ·))
    (hacc : ∀ a ∈ l, ∀ b ∈ acc, b.date < a.date) :
    l.foldl (fun a r => insertByDateDesc r a) acc = l.reverse ++ acc := by
  induction l generalizing acc with
  | nil => simp
  | cons r rs ih =>
    simp only [List.foldl_cons]
    rw [insertByDateDesc_front r acc (hacc r (List.mem_cons_self r rs))]
    rw [List.map_cons, List.pairwise_cons] at hp
    rw [ih (r :: acc) hp.2]
    · simp
    · intro a ha b hb
      rcases List.mem_cons.mp hb with h | h
      · subst h
        exact hp.1 a.date (List.mem_map_of_mem TimesheetRow.date ha)
      · exact hacc a (List.mem_cons_of_mem r ha) b h

theorem dates_pairwise_lt (s e : Int) :
    (get_dates_in_range s e).Pairwise (· < ·) := by
  unfold get_dates_in_range
  refine List.Pairwise.map _ ?_ (List.pairwise_lt_range (e - s + 1).toNat)
  intro a b hij
  omega

/-- C5: the assembled output has exactly one timesheet row per date of the requested
range, in every control path, and get_data returns them sorted by date descending:
the dates of its rows are exactly the range's dates reversed. -/
theorem one_row_per_date_sorted_desc (summ : String → String → Int → String)
    (pk : String) (jiraFetch : Int → FetchOutcome JiraEntry)
    (ghFetch : Int → FetchOutcome GithubEntry) (σ₀ : Store) (s e : Int) :
    (get_data summ pk jiraFetch ghFetch σ₀ s e).map TimesheetRow.date
      = (get_dates_in_range s e).reverse := by
  unfold get_data sortRowsDesc
  have hdates := fetch_timesheet_data_dates summ pk jiraFetch ghFetch σ₀ s e
  have hp : (((fetch_timesheet_data summ pk jiraFetch ghFetch σ₀ s e).2).map
      TimesheetRow.date).Pairwise (· < ·) := by
    rw [hdates]
    exact dates_pairwise_lt s e
  rw [sort_fold_of_ascending _ [] hp (by intro a _ b hb; cases hb)]
  simp [← hdates, List.map_reverse]

theorem store_get_put_self (σ : Store) (d : Int) (log : DayLog) :
    Store.get (Store.put σ d log) d = some log := by
  unfold Store.get Store.put
  rw [List.find?_cons_of_pos _ (by simp)]
  rfl

theorem store_get_put_ne (σ : Store) (d x : Int) (log : DayLog) (h : x ≠ d) :
    Store.get (Store.put σ d log) x = Store.get σ x := by
  unfold Store.get Store.put
  rw [List.find?_cons_of_neg _ (by simp [beq_iff_eq]; omega)]

theorem processDate_fst (summ : String → String → Int → String) (pk : String)
    (jo : FetchOutcome JiraEntry) (go : FetchOutcome GithubEntry) (σ : Store) (d : Int) :
    (processDate summ pk jo go σ d).1
      = Store.put σ d
          ⟨(processSource "No Jira activity" jo).1, (processSource "No GitHub activity" go).1,
           (processSource "No Jira activity" jo).2, (processSource "No GitHub activity" go).2⟩ := rfl

theorem processSource_fails {α : Type} (mark : String) (o : FetchOutcome α)
    (h : failsParse mark o) : processSource mark o = ([], expectedRaw o) := by
  cases o with
  | exn m => rfl
  | ok content decoded =>
    simp only [failsParse] at h
    simp only [processSource, expectedRaw]
    rcases h with h | h | h | h
    · rw [h]
      simp
    · rw [h]
      simp
    · subst h
      split <;> rfl
    · subst h
      split <;> rfl

/-- C6: a per-date fetch failure (exception) or error marker or parse failure
(non-JSON or non-list content) from either source leaves that source's entry list
empty for the date while the raw content or error text is still recorded in the
persisted snapshot, and the assembly of the remaining dates is never aborted: the
output always holds one row for every date of the range. -/
theorem failed_source_degrades_softly (summ : String → String → Int → String)
    (pk : String) (σ : Store) (d : Int)
    (jo : FetchOutcome JiraEntry) (go : FetchOutcome GithubEntry) :
    (failsParse "No Jira activity" jo →
      processSource "No Jira activity" jo = (([] : List JiraEntry), expectedRaw jo))
    ∧ (failsParse "No GitHub activity" go →
      processSource "No GitHub activity" go = (([] : List GithubEntry), expectedRaw go))
    ∧ Store.get (processDate summ pk jo go σ d).1 d
        = some ⟨(processSource "No Jira activity" jo).1,
                (processSource "No GitHub activity" go).1,
                (processSource "No Jira activity" jo).2,
                (processSource "No GitHub activity" go).2⟩
    ∧ ∀ (jiraFetch : Int → FetchOutcome JiraEntry)
        (ghFetch : Int → FetchOutcome GithubEntry) (σ₀ : Store) (s e : Int),
        ((fetch_timesheet_data summ pk jiraFetch ghFetch σ₀ s e).2).length
          = (get_dates_in_range s e).length := by
  refine ⟨fun hf => processSource_fails _ _ hf, fun hf => processSource_fails _ _ hf, ?_, ?_⟩
  · rw [processDate_fst]
    exact store_get_put_self σ d _
  · intro jf gf σ₀ s e
    have h := fetch_timesheet_data_dates summ pk jf gf σ₀ s e
    have hlen := congrArg List.length h
    simpa using hlen

/-- Witness for C6 at a concrete raised jira call and a concrete github no-activity
marker response. -/
theorem failed_source_degrades_softly_witness :
    processSource "No Jira activity" (FetchOutcome.exn (α := JiraEntry) "boom")
        = ([], "Error: boom")
      ∧ processSource "No GitHub activity"
          (FetchOutcome.ok (α := GithubEntry) "No GitHub activity found for user" none)
        = ([], "No GitHub activity found for user") := by
  obtain ⟨h1, h2, -, -⟩ := failed_source_degrades_softly (fun _ _ _ => "") "PROJ" [] 0
      (FetchOutcome.exn "boom") (FetchOutcome.ok "No GitHub activity found for user" none)
  exact ⟨h1 trivial, h2 (Or.inr (Or.inr (Or.inl rfl)))⟩

theorem findSome?_congr {α β : Type} (f g : α → Option β) (l : List α)
    (h : ∀ a ∈ l, f a = g a) : l.findSome? f = l.findSome? g := by
  induction l with
  | nil => rfl
  | cons a l ih =>
    rw [List.findSome?_cons, List.findSome?_cons, h a (List.mem_cons_self a l),
        ih (fun x hx => h x (List.mem_cons_of_mem a hx))]

theorem findLast_succ (σ : Store) (d : Int) (n : Nat) :
    find_last_in_progress_task σ d (n + 1)
      = (first_in_progress σ (d - 1)).orElse
          (fun _ => find_last_in_progress_task σ (d - 1) n) := by
  unfold find_last_in_progress_task
  rw [List.range_succ_eq_map, List.findSome?_cons, List.findSome?_map]
  have hcong : List.findSome?
      ((fun (i : Nat) => match Store.get σ (d - ((i : Int) + 1)) with
        | none => none
        | some log => log.jira.find? (fun e => pyLower e.status == "in progress")) ∘ Nat.succ)
      (List.range n)
      = List.findSome?
        (fun (i : Nat) => match Store.get σ ((d - 1) - ((i : Int) + 1)) with
          | none => none
          | some log => log.jira.find? (fun e => pyLower e.status == "in progress"))
        (List.range n) := by
    apply findSome?_congr
    intro a _
    have hidx : d - ((Nat.succ a : Int) + 1) = (d - 1) - ((a : Int) + 1) := by
      push_cast
      ring
    simp only [Function.comp_apply, hidx]
  rw [hcong]
  simp only [Nat.cast_zero, zero_add]
  unfold first_in_progress
  cases hget : Store.get σ (d - 1) with
  | none => rfl
  | some log =>
    cases hf : log.jira.find? (fun e => pyLower e.status == "in progress") with
    | none =>
      dsimp only
      rw [hf]
      rfl
    | some t =>
      dsimp only
      rw [hf]
      rfl

theorem orElse_eq_none_iff {α : Type} (a : Option α) (f : Unit → Option α) :
    a.orElse f = none ↔ a = none ∧ f () = none := by
  cases a <;> simp [Option.orElse]

theorem has_in_progress_false_iff (σ : Store) (d : Int) :
    has_in_progress σ d = false ↔ first_in_progress σ d = none := by
  unfold has_in_progress first_in_progress
  cases Store.get σ d with
  | none => simp
  | some log => rw [List.any_eq_false, List.find?_eq_none]

theorem findLast_none_iff (n : Nat) : ∀ (σ : Store) (d : Int),
    find_last_in_progress_task σ d n = none
      ↔ ∀ i : Nat, 1 ≤ i → i ≤ n → has_in_progress σ (d - (i : Int)) = false := by
  induction n with
  | zero =>
    intro σ d
    constructor
    · intro _ i h1 h2
      omega
    · intro _
      rfl
  | succ n ih =>
    intro σ d
    rw [findLast_succ, orElse_eq_none_iff]
    constructor
    · rintro ⟨h1, h2⟩ i hi1 hi2
      by_cases hi : i = 1
      · subst hi
        have := (has_in_progress_false_iff σ (d - 1)).mpr h1
        simpa using this
      · have hres := (ih σ (d - 1)).mp h2 (i - 1) (by omega) (by omega)
        have harg : (d - 1) - ((i - 1 : Nat) : Int) = d - (i : Int) := by
          push_cast [Nat.cast_sub (by omega : 1 ≤ i)]
          ring
        rwa [harg] at hres
    · intro h
      constructor
      · apply (has_in_progress_false_iff σ (d - 1)).mp
        have := h 1 le_rfl (by omega)
        simpa using this
      · apply (ih σ (d - 1)).mpr
        intro i h1 h2
        have := h (i + 1) (by omega) (by omega)
        have harg : d - ((i + 1 : Nat) : Int) = (d - 1) - (i : Int) := by
          push_cast
          ring
        rwa [harg] at this

theorem findLast_some (n : Nat) : ∀ (σ : Store) (d : Int) (t : JiraEntry),
    find_last_in_progress_task σ d n = some t →
      ∃ i : Nat, 1 ≤ i ∧ i ≤ n ∧ first_in_progress σ (d - (i : Int)) = some t ∧
        ∀ j : Nat, 1 ≤ j → j < i → has_in_progress σ (d - (j : Int)) = false := by
  induction n with
  | zero =>
    intro σ d t h
    simp [find_last_in_progress_task] at h
  | succ n ih =>
    intro σ d t h
    rw [findLast_succ] at h
    cases hc : first_in_progress σ (d - 1) with
    | some t0 =>
      rw [hc] at h
      have ht : t0 = t := by simpa [Option.orElse] using h
      subst ht
      refine ⟨1, le_rfl, by omega, ?_, ?_⟩
      · simpa using hc
      · intro j hj1 hj2
        omega
    | none =>
      rw [hc] at h
      have h2 : find_last_in_progress_task σ (d - 1) n = some t := by
        simpa [Option.orElse] using h
      obtain ⟨i, hi1, hi2, hfirst, hjs⟩ := ih σ (d - 1) t h2
      refine ⟨i + 1, by omega, by omega, ?_, ?_⟩
      · have harg : d - ((i + 1 : Nat) : Int) = (d - 1) - (i : Int) := by
          push_cast
          ring
        rwa [harg]
      · intro j hj1 hjlt
        by_cases hj : j = 1
        · subst hj
          have := (has_in_progress_false_iff σ (d - 1)).mpr hc
          simpa using this
        · have hres := hjs (j - 1) (by omega) (by omega)
          have harg : (d - 1) - ((j - 1 : Nat) : Int) = d - (j : Int) := by
            push_cast [Nat.cast_sub (by omega : 1 ≤ j)]
            ring
          rwa [harg] at hres

theorem findLast_put_self (σ : Store) (d : Int) (log : DayLog) (n : Nat) :
    find_last_in_progress_task (Store.put σ d log) d n
      = find_last_in_progress_task σ d n := by
  unfold find_last_in_progress_task
  apply findSome?_congr
  intro i _
  rw [store_get_put_ne σ d (d - ((i : Int) + 1)) log (by omega)]

/-- C4: for a date whose two sources both yield zero entries, the assembled row is
decided by the carry-forward resolver: the resolver scans the stored snapshots of
the 5 prior calendar days nearest-first and returns the first issue entry whose
status case-insensitively equals "in progress"; when found the row carries status
"In Progress" and the synthesized continuation remark, otherwise the row carries the
N/A sentinels and the no-activity remark. -/
theorem carry_forward_resolution (summ : String → String → Int → String) (pk : String)
    (σ : Store) (d : Int) (jo : FetchOutcome JiraEntry) (go : FetchOutcome GithubEntry)
    (hj : (processSource "No Jira activity" jo).1 = [])
    (hg : (processSource "No GitHub activity" go).1 = []) :
    ((processDate summ pk jo go σ d).2
      = match find_last_in_progress_task σ d with
        | some t =>
          { date := d, project := t.project.getD pk, task := t.summary,
            taskDescription := t.description, status := "In Progress",
            remark := "Continuing work on " ++ t.summary ++ "." }
        | none =>
          { date := d, project := "N/A", task := "N/A",
            taskDescription := "No GitHub activity / work found", status := "N/A",
            remark := "No activity found." })
    ∧ (find_last_in_progress_task σ d = none ↔
        ∀ i : Nat, 1 ≤ i → i ≤ 5 → has_in_progress σ (d - (i : Int)) = false)
    ∧ (∀ t, find_last_in_progress_task σ d = some t →
        ∃ i : Nat, 1 ≤ i ∧ i ≤ 5 ∧ first_in_progress σ (d - (i : Int)) = some t ∧
          ∀ j : Nat, 1 ≤ j → j < i → has_in_progress σ (d - (j : Int)) = false) := by
  refine ⟨?_, findLast_none_iff 5 σ d, fun t ht => findLast_some 5 σ d t ht⟩
  simp only [processDate, hj, hg, sortByPriority, List.foldl_nil, List.head?_nil,
    github_context_of, Option.isSome_none, ne_eq, not_true_eq_false, or_self,
    Bool.false_eq_true, if_false]
  rw [findLast_put_self]

/-- The carry-forward example store: an in-progress issue entry stored 3 days back,
nothing nearer. -/
def c4Store : Store :=
  [(-3, ⟨[⟨"K7", "Fix the widget", "widget work", "In Progress", some "P"⟩], [], "", ""⟩)]

/-- Witness for C4 at a concrete store and a date whose fetches both raised. -/
theorem carry_forward_resolution_witness :
    (processDate (fun _ _ _ => "") "PROJ" (FetchOutcome.exn "x") (FetchOutcome.exn "y")
        c4Store 0).2
      = match find_last_in_progress_task c4Store 0 with
        | some t =>
          { date := 0, project := t.project.getD "PROJ", task := t.summary,
            taskDescription := t.description, status := "In Progress",
            remark := "Continuing work on " ++ t.summary ++ "." }
        | none =>
          { date := 0, project := "N/A", task := "N/A",
            taskDescription := "No GitHub activity / work found", status := "N/A",
            remark := "No activity found." } :=
  (carry_forward_resolution (fun _ _ _ => "") "PROJ" c4Store 0
    (FetchOutcome.exn "x") (FetchOutcome.exn "y") rfl rfl).1

/-- C7: summarize_activity never propagates an LLM failure: whenever the chat call
fails (with message e), it returns the fallback string embedding e and the first 50
characters of each of the issue context and the vcs context; and the assembler
places that fallback in the row's remark exactly like a normal summary, for any day
that has a selected issue entry or vcs activity. -/
theorem summarizer_fallback_is_normal_remark (llmCall : String → Except String String)
    (e : String) (pk : String) (jo : FetchOutcome JiraEntry) (go : FetchOutcome GithubEntry)
    (σ : Store) (d : Int)
    (hfail : ∀ prompt, llmCall prompt = Except.error e)
    (hact : ((sortByPriority (processSource "No Jira activity" jo).1).head?).isSome
      ∨ github_context_of (processSource "No GitHub activity" go).1 ≠ "") :
    (∀ jc gc d2, summarize_activity true llmCall jc gc d2
        = "LLM Error: " ++ e ++ ". Raw Data: " ++ pyTake jc 50 ++ "... "
          ++ pyTake gc 50 ++ "...")
    ∧ (processDate (summarize_activity true llmCall) pk jo go σ d).2.remark
        = "LLM Error: " ++ e ++ ". Raw Data: "
          ++ pyTake (jira_context_of
              (sortByPriority (processSource "No Jira activity" jo).1).head?) 50
          ++ "... "
          ++ pyTake (github_context_of (processSource "No GitHub activity" go).1) 50
          ++ "..." := by
  have hsum : ∀ jc gc d2, summarize_activity true llmCall jc gc d2
      = "LLM Error: " ++ e ++ ". Raw Data: " ++ pyTake jc 50 ++ "... "
        ++ pyTake gc 50 ++ "..." := by
    intro jc gc d2
    simp [summarize_activity, hfail]
  refine ⟨hsum, ?_⟩
  simp only [processDate]
  cases hsel : (sortByPriority (processSource "No Jira activity" jo).1).head? with
  | some e0 => simp [hsel, hsum]
  | none =>
    rcases hact with hs | hg
    · rw [hsel] at hs
      simp at hs
    · simp [hsel, hg, hsum]

/-- Witness for C7 at a concrete failing LLM call on a day with one fetched commit. -/
theorem summarizer_fallback_is_normal_remark_witness :
    (processDate (summarize_activity true (fun _ => Except.error "boom")) "PROJ"
        (FetchOutcome.exn "jx")
        (FetchOutcome.ok "raw" (some (Parsed.jsonList [mkCommitEntry "A" "sha" "hello world"])))
        [] 0).2.remark
      = "LLM Error: " ++ "boom" ++ ". Raw Data: "
        ++ pyTake (jira_context_of
            (sortByPriority (processSource "No Jira activity"
              (FetchOutcome.exn (α := JiraEntry) "jx")).1).head?) 50
        ++ "... "
        ++ pyTake (github_context_of (processSource "No GitHub activity"
            (FetchOutcome.ok "raw" (some (Parsed.jsonList
              [mkCommitEntry "A" "sha" "hello world"])))).1) 50
        ++ "..." :=
  (summarizer_fallback_is_normal_remark (fun _ => Except.error "boom") "boom" "PROJ"
    (FetchOutcome.exn "jx")
    (FetchOutcome.ok "raw" (some (Parsed.jsonList [mkCommitEntry "A" "sha" "hello world"])))
    [] 0 (fun _ => rfl) (Or.inr (by decide))).2

/-- Streak/longest/active transition of one scanned day, keyed by its inactive
flag (proof device for the consistency metrics). -/
def streakStep (acc : Nat × Nat × Nat) (b : Bool) : Nat × Nat × Nat :=
  if b then (acc.1 + 1, max acc.2.1 (acc.1 + 1), acc.2.2)
  else (0, acc.2.1, acc.2.2 + 1)

theorem get_dates_nodup (s e : Int) : (get_dates_in_range s e).Nodup :=
  (dates_pairwise_lt s e).imp (fun h => ne_of_lt h)

theorem find?_filterMap_not_mem (σ : Store) (ds : List Int) (d : Int) (hd : d ∉ ds) :
    List.find? (fun l => l.1 == d)
      (ds.filterMap (fun x => (Store.get σ x).map (fun log => (x, log)))) = none := by
  induction ds with
  | nil => rfl
  | cons x rest ih =>
    have hx : x ≠ d := fun h => hd (h ▸ List.mem_cons_self x rest)
    have hrest : d ∉ rest := fun h => hd (List.mem_cons_of_mem x h)
    simp only [List.filterMap_cons]
    cases hget : Store.get σ x with
    | none => exact ih hrest
    | some log =>
      rw [Option.map_some']
      rw [List.find?_cons_of_neg _ (by simp [beq_iff_eq]; exact hx)]
      exact ih hrest

theorem load_logs_find? (σ : Store) (ds : List Int) (d : Int)
    (hnd : ds.Nodup) (hd : d ∈ ds) :
    List.find? (fun l => l.1 == d)
      (ds.filterMap (fun x => (Store.get σ x).map (fun log => (x, log))))
      = (Store.get σ d).map (fun log => (d, log)) := by
  induction ds with
  | nil => cases hd
  | cons x rest ih =>
    rw [List.nodup_cons] at hnd
    simp only [List.filterMap_cons]
    by_cases hx : x = d
    · subst hx
      cases hget : Store.get σ x with
      | none =>
        simp only [Option.map_none']
        exact find?_filterMap_not_mem σ rest x hnd.1
      | some log =>
        simp only [Option.map_some']
        rw [List.find?_cons_of_pos _ (by simp)]
    · have hd2 : d ∈ rest := by
        rcases List.mem_cons.mp hd with h | h
        · exact absurd h.symm hx
        · exact h
      cases hget : Store.get σ x with
      | none =>
        simp only [Option.map_none']
        exact ih hnd.2 hd2
      | some log =>
        simp only [Option.map_some']
        rw [List.find?_cons_of_neg _ (by simp [beq_iff_eq]; exact hx)]
        exact ih hnd.2 hd2

theorem dayStepAccum_streak (st : EngState) (date : Int) (jl : List JiraEntry)
    (gl : List GithubEntry) : (dayStepAccum st date jl gl).streak = st.streak := by
  simp only [dayStepAccum]
  split <;> rfl

theorem dayStepAccum_longest (st : EngState) (date : Int) (jl : List JiraEntry)
    (gl : List GithubEntry) : (dayStepAccum st date jl gl).longest = st.longest := by
  simp only [dayStepAccum]
  split <;> rfl

theorem dayStepAccum_active (st : EngState) (date : Int) (jl : List JiraEntry)
    (gl : List GithubEntry) : (dayStepAccum st date jl gl).active_days = st.active_days := by
  simp only [dayStepAccum]
  split <;> rfl

theorem dayStep_streak_proj (σ : Store) (s e : Int) (st : EngState) (date : Int)
    (hdate : date ∈ get_dates_in_range s e) :
    ((dayStep (_load_logs_in_range σ s e) st date).streak,
     (dayStep (_load_logs_in_range σ s e) st date).longest,
     (dayStep (_load_logs_in_range σ s e) st date).active_days)
      = streakStep (st.streak, st.longest, st.active_days) (inactiveDay σ date) := by
  have hfind := load_logs_find? σ (get_dates_in_range s e) date (get_dates_nodup s e) hdate
  simp only [dayStep, _load_logs_in_range]
  rw [hfind]
  unfold inactiveDay
  cases hget : Store.get σ date with
  | none => rfl
  | some log =>
    simp only [Option.map_some']
    by_cases hcond : (log.jira.isEmpty = true ∧ log.github.isEmpty = true)
    · rw [if_pos hcond, dayStepAccum_streak, dayStepAccum_longest, dayStepAccum_active]
      simp [streakStep, hcond.1, hcond.2]
    · rw [if_neg hcond, dayStepAccum_streak, dayStepAccum_longest, dayStepAccum_active]
      have hflag : (log.jira.isEmpty && log.github.isEmpty) = false := by
        cases hj : log.jira.isEmpty <;> cases hg : log.github.isEmpty <;> simp_all
      simp [streakStep, hflag]

theorem engine_fold_streak (σ : Store) (s e : Int) (ds : List Int)
    (hds : ∀ d ∈ ds, d ∈ get_dates_in_range s e) : ∀ (st : EngState),
    ((ds.foldl (dayStep (_load_logs_in_range σ s e)) st).streak,
     (ds.foldl (dayStep (_load_logs_in_range σ s e)) st).longest,
     (ds.foldl (dayStep (_load_logs_in_range σ s e)) st).active_days)
      = (ds.map (inactiveDay σ)).foldl streakStep
          (st.streak, st.longest, st.active_days) := by
  induction ds with
  | nil => intro st; rfl
  | cons d rest ih =>
    intro st
    simp only [List.foldl_cons, List.map_cons]
    rw [← dayStep_streak_proj σ s e st d (hds d (List.mem_cons_self d rest))]
    exact ih (fun x hx => hds x (List.mem_cons_of_mem d hx)) _

theorem carryRun_ge (l : List Bool) : ∀ s, s ≤ carryRun s l := by
  induction l with
  | nil => intro s; exact le_rfl
  | cons b bs ih =>
    intro s
    unfold carryRun
    by_cases hb : b = true
    · rw [if_pos hb]
      exact le_trans (by omega) (ih (s + 1))
    · rw [if_neg hb]
      exact le_max_left _ _

theorem leadRun_le_spec (l : List Bool) : leadRun l ≤ specLongestRun l := by
  cases l with
  | nil => exact le_rfl
  | cons b bs =>
    unfold specLongestRun
    exact le_max_left _ _

theorem carryRun_eq (l : List Bool) : ∀ s : Nat,
    carryRun s l = max (s + leadRun l) (specLongestRun l) := by
  induction l with
  | nil =>
    intro s
    simp [carryRun, leadRun, specLongestRun]
  | cons b bs ih =>
    intro s
    unfold carryRun specLongestRun leadRun
    by_cases hb : b = true
    · rw [if_pos hb, if_pos hb, ih (s + 1)]
      have h1 : leadRun bs + 1 ≤ s + 1 + leadRun bs := by omega
      have h2 : leadRun bs ≤ specLongestRun bs := leadRun_le_spec bs
      omega
    · rw [if_neg hb, if_neg hb, ih 0]
      have h2 : leadRun bs ≤ specLongestRun bs := leadRun_le_spec bs
      omega

theorem carryRun_nil (s : Nat) : carryRun s [] = s := rfl

theorem carryRun_cons (s : Nat) (b : Bool) (bs : List Bool) :
    carryRun s (b :: bs) = if b then carryRun (s + 1) bs else max s (carryRun 0 bs) := rfl

theorem streakFold_char (l : List Bool) : ∀ (s m a : Nat), s ≤ m →
    (l.foldl streakStep (s, m, a)).2.1 = max m (carryRun s l)
    ∧ (l.foldl streakStep (s, m, a)).2.2 = a + l.countP (fun b => !b) := by
  induction l with
  | nil =>
    intro s m a hsm
    refine ⟨?_, by simp⟩
    simp only [List.foldl_nil, carryRun_nil]
    exact (max_eq_left hsm).symm
  | cons b bs ih =>
    intro s m a hsm
    simp only [List.foldl_cons, List.countP_cons]
    by_cases hb : b = true
    · subst hb
      have hstep : streakStep (s, m, a) true = (s + 1, max m (s + 1), a) := by
        simp [streakStep]
      rw [hstep]
      obtain ⟨h1, h2⟩ := ih (s + 1) (max m (s + 1)) a (le_max_right _ _)
      constructor
      · rw [h1, carryRun_cons, if_pos rfl]
        have hge := carryRun_ge bs (s + 1)
        have hm1 : max m (s + 1) = max m (s + 1) := rfl
        rw [max_assoc]
        have : max (s + 1) (carryRun (s + 1) bs) = carryRun (s + 1) bs := max_eq_right hge
        rw [this]
      · rw [h2]
        simp
    · have hb2 : b = false := by
        cases b
        · rfl
        · exact absurd rfl hb
      subst hb2
      have hstep : streakStep (s, m, a) false = (0, m, a + 1) := by
        simp [streakStep]
      rw [hstep]
      obtain ⟨h1, h2⟩ := ih 0 m (a + 1) (by omega)
      constructor
      · rw [h1, carryRun_cons, if_neg (by simp)]
        rw [← max_assoc, max_eq_left hsm]
      · rw [h2]
        simp
        omega

/-- C8: the inactivity counter semantics of the insights engine: scanning the range
chronologically, the counter rises on each day with no stored snapshot or with zero
entries of both kinds and resets on active days, so
longest_inactivity_streak_days is the longest run of consecutive inactive days and
active_days counts the non-inactive days; in particular a 5-day range that is
active on days 1 and 5 with nothing stored for days 2-4 yields streak 3 and 2
active days. -/
theorem inactivity_streak_is_longest_run :
    (∀ (σ : Store) (s e : Int),
      (generate_productivity_insights σ s e).longest_inactivity_streak_days
        = specLongestRun ((get_dates_in_range s e).map (inactiveDay σ))
      ∧ (generate_productivity_insights σ s e).active_days
        = ((get_dates_in_range s e).map (inactiveDay σ)).countP (fun b => !b))
    ∧ (generate_productivity_insights c8Store 1 5).longest_inactivity_streak_days = 3
    ∧ (generate_productivity_insights c8Store 1 5).active_days = 2 := by
  refine ⟨?_, by decide, by decide⟩
  intro σ s e
  have htriple := engine_fold_streak σ s e (get_dates_in_range s e) (fun d hd => hd) initEngState
  have hchar := streakFold_char ((get_dates_in_range s e).map (inactiveDay σ)) 0 0 0 le_rfl
  have h2 := congrArg (fun t : Nat × Nat × Nat => t.2.1) htriple
  have h3 := congrArg (fun t : Nat × Nat × Nat => t.2.2) htriple
  dsimp only at h2 h3
  have hzero : (initEngState.streak, initEngState.longest, initEngState.active_days)
      = ((0, 0, 0) : Nat × Nat × Nat) := rfl
  rw [hzero] at h2 h3
  have hl : (generate_productivity_insights σ s e).longest_inactivity_streak_days
      = ((get_dates_in_range s e).foldl (dayStep (_load_logs_in_range σ s e)) initEngState).longest := rfl
  have ha : (generate_productivity_insights σ s e).active_days
      = ((get_dates_in_range s e).foldl (dayStep (_load_logs_in_range σ s e)) initEngState).active_days := rfl
  constructor
  · rw [hl, h2, hchar.1, carryRun_eq _ 0, Nat.zero_add]
    rw [max_eq_right (leadRun_le_spec _)]
    exact max_eq_right (Nat.zero_le _)
  · rw [ha, h3, hchar.2]
    exact Nat.zero_add _

theorem rhe_err (x : ℚ) : |(rhe x : ℚ) - x| ≤ 1 / 2 := by
  unfold rhe
  have hf0 : (0 : ℚ) ≤ Int.fract x := Int.fract_nonneg x
  have hf1 : Int.fract x < 1 := Int.fract_lt_one x
  have hsf : x - (⌊x⌋ : ℚ) = Int.fract x := Int.self_sub_floor x
  split_ifs with h1 h2 h3
  · rw [abs_sub_comm, hsf, abs_of_nonneg hf0]
    linarith
  · push_cast
    have heq : ((⌊x⌋ : ℚ) + 1) - x = 1 - Int.fract x := by linarith
    rw [heq, abs_of_nonneg (by linarith)]
    linarith
  · have hfr : Int.fract x = 1 / 2 := le_antisymm (not_lt.mp h2) (not_lt.mp h1)
    rw [abs_sub_comm, hsf, abs_of_nonneg hf0, hfr]
  · have hfr : Int.fract x = 1 / 2 := le_antisymm (not_lt.mp h2) (not_lt.mp h1)
    push_cast
    have heq : ((⌊x⌋ : ℚ) + 1) - x = 1 - Int.fract x := by linarith
    rw [heq, abs_of_nonneg (by linarith), hfr]
    norm_num

theorem pyRound2_err (x : ℚ) : |pyRound2 x - x| ≤ 1 / 200 := by
  unfold pyRound2
  have h := rhe_err (100 * x)
  have heq : (rhe (100 * x) : ℚ) / 100 - x = ((rhe (100 * x) : ℚ) - 100 * x) / 100 := by
    ring
  rw [heq, abs_div, abs_of_pos (by norm_num : (0 : ℚ) < 100)]
  linarith

theorem sum_err_bound (f g : Nat → ℚ) (herr : ∀ v, |f v - g v| ≤ 1 / 200)
    (vs : List Nat) :
    |(vs.map f).sum - (vs.map g).sum| ≤ (vs.length : ℚ) / 200 := by
  induction vs with
  | nil => simp
  | cons v vs ih =>
    simp only [List.map_cons, List.sum_cons, List.length_cons]
    have h1 := herr v
    have hstep : |f v + (vs.map f).sum - (g v + (vs.map g).sum)|
        ≤ |f v - g v| + |(vs.map f).sum - (vs.map g).sum| := by
      have := abs_add (f v - g v) ((vs.map f).sum - (vs.map g).sum)
      have harr : f v + (vs.map f).sum - (g v + (vs.map g).sum)
          = (f v - g v) + ((vs.map f).sum - (vs.map g).sum) := by ring
      rw [harr]
      exact this
    push_cast
    have : ((vs.length : ℚ) + 1) / 200 = 1 / 200 + (vs.length : ℚ) / 200 := by ring
    rw [this]
    linarith

theorem cast_list_sum (vs : List Nat) :
    ((vs.sum : ℕ) : ℚ) = (vs.map (fun (v : Nat) => (v : ℚ))).sum := by
  induction vs with
  | nil => simp
  | cons v vs ih => simp only [List.sum_cons, List.map_cons, Nat.cast_add, ih]

theorem sum_map_div_mul (vs : List Nat) (T : ℚ) :
    (vs.map (fun (v : Nat) => (v : ℚ) / T * 100)).sum
      = (vs.map (fun (v : Nat) => (v : ℚ))).sum * (100 / T) := by
  induction vs with
  | nil => simp
  | cons v vs ih =>
    simp only [List.map_cons, List.sum_cons]
    rw [ih]
    ring

theorem sum_div_total (vs : List Nat) (hT : vs.sum ≠ 0) :
    (vs.map (fun (v : Nat) => (v : ℚ) / ((vs.sum : ℕ) : ℚ) * 100)).sum = 100 := by
  have hT2 : ((vs.sum : ℕ) : ℚ) ≠ 0 := by exact_mod_cast hT
  rw [sum_map_div_mul, ← cast_list_sum, mul_comm]
  exact div_mul_cancel₀ 100 hT2

theorem sumValues_map_pair (m : List (String × Nat)) (f : Nat → ℚ) :
    sumValues (m.map (fun p => (p.1, f p.2))) = ((m.map Prod.snd).map f).sum := by
  unfold sumValues
  rw [List.map_map, List.map_map]
  rfl

theorem dist_sum_bound (m : List (String × Nat)) (hT : (m.map Prod.snd).sum ≠ 0) :
    |sumValues (m.map (fun p =>
        (p.1, pyRound2 ((p.2 : ℚ) / (((m.map Prod.snd).sum : ℕ) : ℚ) * 100)))) - 100|
      ≤ (m.length : ℚ) / 200 := by
  rw [sumValues_map_pair m
    (fun v => pyRound2 ((v : ℚ) / (((m.map Prod.snd).sum : ℕ) : ℚ) * 100))]
  have hexact := sum_div_total (m.map Prod.snd) hT
  have herr := sum_err_bound
    (fun v => pyRound2 ((v : ℚ) / (((m.map Prod.snd).sum : ℕ) : ℚ) * 100))
    (fun v => (v : ℚ) / (((m.map Prod.snd).sum : ℕ) : ℚ) * 100)
    (fun v => pyRound2_err _) (m.map Prod.snd)
  rw [hexact] at herr
  rw [List.length_map] at herr
  exact herr

/-- C9 (amended): whenever the total issue-touch count is positive, the values of
project_distribution_percent sum to 100 within a tolerance of 0.005 per distinct
project, i.e. within n/200 where n is the number of distribution entries (so within
0.1 whenever at most 20 distinct projects are touched); when the total is 0 the
mapping is empty. -/
theorem project_distribution_sum_bounded (σ : Store) (s e : Int) :
    ((generate_productivity_insights σ s e).total_jira_updates ≠ 0 →
      |sumValues ((generate_productivity_insights σ s e).project_distribution_percent) - 100|
        ≤ (((generate_productivity_insights σ s e).project_distribution_percent).length : ℚ) / 200)
    ∧ ((generate_productivity_insights σ s e).total_jira_updates = 0 →
      (generate_productivity_insights σ s e).project_distribution_percent = []) := by
  have htot : (generate_productivity_insights σ s e).total_jira_updates
      = ((((get_dates_in_range s e).foldl (dayStep (_load_logs_in_range σ s e))
          initEngState).jira_projects).map Prod.snd).sum := rfl
  have hdist : (generate_productivity_insights σ s e).project_distribution_percent
      = (if ((((get_dates_in_range s e).foldl (dayStep (_load_logs_in_range σ s e))
            initEngState).jira_projects).map Prod.snd).sum = 0 then []
        else (((get_dates_in_range s e).foldl (dayStep (_load_logs_in_range σ s e))
            initEngState).jira_projects).map
          (fun p => (p.1, pyRound2 ((p.2 : ℚ)
            / (((((get_dates_in_range s e).foldl (dayStep (_load_logs_in_range σ s e))
                initEngState).jira_projects).map Prod.snd).sum : ℚ) * 100)))) := rfl
  constructor
  · intro hT
    rw [htot] at hT
    rw [hdist, if_neg hT, List.length_map]
    exact dist_sum_bound _ hT
  · intro hT
    rw [htot] at hT
    rw [hdist, if_pos hT]

theorem pyRound2_at_3125 : pyRound2 (((1 : Nat) : ℚ) / ((32 : Nat) : ℚ) * 100) = 312 / 100 := by
  have h1 : ((1 : Nat) : ℚ) / ((32 : Nat) : ℚ) * 100 = 25 / 8 := by
    push_cast
    norm_num
  rw [h1]
  unfold pyRound2 rhe
  have h2 : (100 : ℚ) * (25 / 8) = 625 / 2 := by norm_num
  rw [h2]
  have hfl : ⌊(625 : ℚ) / 2⌋ = 312 := by norm_num
  have hfr : Int.fract ((625 : ℚ) / 2) = 1 / 2 := by
    unfold Int.fract
    rw [hfl]
    norm_num
  rw [hfr, hfl]
  norm_num

set_option maxRecDepth 40000 in
/-- C9 counterexample: a store whose range touches 32 projects exactly once each
makes every percentage exactly 3.125, which rounds half-to-even to 3.12; the values
then sum to 99.84, which misses 100 by 0.16, outside the claimed 0.1 tolerance,
while the total issue-touch count 32 is positive. -/
theorem project_distribution_sum_counterexample :
    (generate_productivity_insights c9Store 0 0).total_jira_updates = 32
    ∧ ¬ (|sumValues ((generate_productivity_insights c9Store 0 0).project_distribution_percent)
          - 100| ≤ 1 / 10) := by
  constructor
  · decide
  · have hmap : ((generate_productivity_insights c9Store 0 0).project_distribution_percent).map
        Prod.snd = List.replicate 32 (pyRound2 (((1 : Nat) : ℚ) / ((32 : Nat) : ℚ) * 100)) := by
      rfl
    rw [sumValues, hmap, pyRound2_at_3125, List.sum_replicate, nsmul_eq_mul]
    intro habs
    rw [abs_le] at habs
    have h1 := habs.1
    norm_num at h1

/-- Witness for C9's amended bound at a store with a positive issue-touch total and
another with none. -/
theorem project_distribution_sum_bounded_witness :
    (|sumValues ((generate_productivity_insights c2Store 0 1).project_distribution_percent)
        - 100|
      ≤ (((generate_productivity_insights c2Store 0 1).project_distribution_percent).length : ℚ)
          / 200)
    ∧ (generate_productivity_insights c1Store 0 0).project_distribution_percent = [] :=
  ⟨(project_distribution_sum_bounded c2Store 0 1).1 (by decide),
   (project_distribution_sum_bounded c1Store 0 0).2 (by decide)⟩

/-- The fields of the engine state that feed the jira metrics, the project
distribution and the context-switching count (everything except the
streak/active-day counters), used to track two runs that differ only in entries the
engine skips. -/
def coreOf (st : EngState) :
    List (Int × Nat) × Nat × List (String × Nat) × List (String × Nat)
      × List (String × TicketInfo) × List Int :=
  (st.commits_per_day, st.total_commits, st.commits_per_repo, st.jira_projects,
   st.durations, st.context_days)

theorem jiraStep_keyless (d : Int) (j : JiraEntry) (hkey : j.key = "") (acc : JiraAcc) :
    jiraStep d acc j = acc := by
  simp [jiraStep, hkey]

theorem foldl_jiraStep_keyless (d : Int) (j : JiraEntry) (hkey : j.key = "")
    (pre post : List JiraEntry) (acc : JiraAcc) :
    (pre ++ j :: post).foldl (jiraStep d) acc = (pre ++ post).foldl (jiraStep d) acc := by
  rw [List.foldl_append, List.foldl_append, List.foldl_cons,
      jiraStep_keyless d j hkey]

theorem dayStepAccum_commits_per_day (st : EngState) (d : Int) (jl : List JiraEntry)
    (gl : List GithubEntry) :
    (dayStepAccum st d jl gl).commits_per_day = setAssocInt st.commits_per_day d gl.length := by
  simp only [dayStepAccum]
  split <;> rfl

theorem dayStepAccum_total_commits (st : EngState) (d : Int) (jl : List JiraEntry)
    (gl : List GithubEntry) :
    (dayStepAccum st d jl gl).total_commits = st.total_commits + gl.length := by
  simp only [dayStepAccum]
  split <;> rfl

theorem dayStepAccum_commits_per_repo (st : EngState) (d : Int) (jl : List JiraEntry)
    (gl : List GithubEntry) :
    (dayStepAccum st d jl gl).commits_per_repo
      = (gl.foldl githubStep ([], st.commits_per_repo)).2 := by
  simp only [dayStepAccum]
  split <;> rfl

theorem dayStepAccum_jira_projects (st : EngState) (d : Int) (jl : List JiraEntry)
    (gl : List GithubEntry) :
    (dayStepAccum st d jl gl).jira_projects
      = (jl.foldl (jiraStep d) ⟨st.jira_projects, [], st.durations⟩).jira_projects := by
  simp only [dayStepAccum]
  split <;> rfl

theorem dayStepAccum_durations (st : EngState) (d : Int) (jl : List JiraEntry)
    (gl : List GithubEntry) :
    (dayStepAccum st d jl gl).durations
      = (jl.foldl (jiraStep d) ⟨st.jira_projects, [], st.durations⟩).durations := by
  simp only [dayStepAccum]
  split <;> rfl

theorem dayStepAccum_context_days (st : EngState) (d : Int) (jl : List JiraEntry)
    (gl : List GithubEntry) :
    (dayStepAccum st d jl gl).context_days
      = (if (gl.foldl githubStep ([], st.commits_per_repo)).1.length
            + (jl.foldl (jiraStep d) ⟨st.jira_projects, [], st.durations⟩).daily_projects.length > 2
         then st.context_days ++ [d] else st.context_days) := by
  simp only [dayStepAccum]
  split <;> rfl

theorem dayStepAccum_core_eq (st₁ st₂ : EngState) (d : Int) (jl₁ jl₂ : List JiraEntry)
    (gl : List GithubEntry)
    (h1 : st₁.commits_per_day = st₂.commits_per_day)
    (h2 : st₁.total_commits = st₂.total_commits)
    (h3 : st₁.commits_per_repo = st₂.commits_per_repo)
    (h4 : st₁.jira_projects = st₂.jira_projects)
    (h5 : st₁.durations = st₂.durations)
    (h6 : st₁.context_days = st₂.context_days)
    (hjf : ∀ acc, jl₁.foldl (jiraStep d) acc = jl₂.foldl (jiraStep d) acc) :
    coreOf (dayStepAccum st₁ d jl₁ gl) = coreOf (dayStepAccum st₂ d jl₂ gl) := by
  simp only [coreOf, Prod.mk.injEq]
  refine ⟨?_, ?_, ?_, ?_, ?_, ?_⟩
  · rw [dayStepAccum_commits_per_day, dayStepAccum_commits_per_day, h1]
  · rw [dayStepAccum_total_commits, dayStepAccum_total_commits, h2]
  · rw [dayStepAccum_commits_per_repo, dayStepAccum_commits_per_repo, h3]
  · rw [dayStepAccum_jira_projects, dayStepAccum_jira_projects, h4, h5, hjf]
  · rw [dayStepAccum_durations, dayStepAccum_durations, h4, h5, hjf]
  · rw [dayStepAccum_context_days, dayStepAccum_context_days, h3, h4, h5, h6, hjf]

theorem dayStep_core (logs₁ logs₂ : List (Int × DayLog)) (st₁ st₂ : EngState) (d : Int)
    (hst : coreOf st₁ = coreOf st₂)
    (hlogs : (List.find? (fun l => l.1 == d) logs₁ = none
              ∧ List.find? (fun l => l.1 == d) logs₂ = none)
      ∨ (∃ dl₁ dl₂, List.find? (fun l => l.1 == d) logs₁ = some dl₁
          ∧ List.find? (fun l => l.1 == d) logs₂ = some dl₂
          ∧ dl₁.2.github = dl₂.2.github
          ∧ ∀ acc, dl₁.2.jira.foldl (jiraStep d) acc = dl₂.2.jira.foldl (jiraStep d) acc)) :
    coreOf (dayStep logs₁ st₁ d) = coreOf (dayStep logs₂ st₂ d) := by
  simp only [coreOf, Prod.mk.injEq] at hst
  obtain ⟨h1, h2, h3, h4, h5, h6⟩ := hst
  rcases hlogs with ⟨hn1, hn2⟩ | ⟨dl₁, dl₂, hs1, hs2, hgh, hjf⟩
  · simp only [dayStep]
    rw [hn1, hn2]
    simp only [coreOf, Prod.mk.injEq]
    exact ⟨by rw [h1], h2, h3, h4, h5, h6⟩
  · simp only [dayStep]
    rw [hs1, hs2]
    dsimp only
    rw [hgh]
    refine dayStepAccum_core_eq _ _ _ _ _ _ ?_ ?_ ?_ ?_ ?_ ?_ hjf
    · split <;> split <;> simp only [h1]
    · split <;> split <;> simp only [h2]
    · split <;> split <;> simp only [h3]
    · split <;> split <;> simp only [h4]
    · split <;> split <;> simp only [h5]
    · split <;> split <;> simp only [h6]

theorem engine_fold_core (logs₁ logs₂ : List (Int × DayLog)) (ds : List Int)
    (hrel : ∀ d ∈ ds, (List.find? (fun l => l.1 == d) logs₁ = none
              ∧ List.find? (fun l => l.1 == d) logs₂ = none)
      ∨ (∃ dl₁ dl₂, List.find? (fun l => l.1 == d) logs₁ = some dl₁
          ∧ List.find? (fun l => l.1 == d) logs₂ = some dl₂
          ∧ dl₁.2.github = dl₂.2.github
          ∧ ∀ acc, dl₁.2.jira.foldl (jiraStep d) acc = dl₂.2.jira.foldl (jiraStep d) acc)) :
    ∀ (st₁ st₂ : EngState), coreOf st₁ = coreOf st₂ →
      coreOf (ds.foldl (dayStep logs₁) st₁) = coreOf (ds.foldl (dayStep logs₂) st₂) := by
  induction ds with
  | nil =>
    intro st₁ st₂ h
    exact h
  | cons d rest ih =>
    intro st₁ st₂ h
    simp only [List.foldl_cons]
    exact ih (fun x hx => hrel x (List.mem_cons_of_mem _ hx)) _ _
      (dayStep_core logs₁ logs₂ st₁ st₂ d h (hrel d (List.mem_cons_self _ _)))

/-- C10: an issue entry whose key field is missing or empty (modeled as key = "")
is skipped entirely by the insights engine: removing it from its day's stored
snapshot leaves total_tickets_touched, tickets_completed, tickets_in_progress,
average_days_active, project_distribution_percent and the context-switching count
unchanged, even though the entry is present in the snapshot. -/
theorem keyless_issue_entry_skipped (σ : Store) (s e d₀ : Int)
    (pre post : List JiraEntry) (j : JiraEntry) (gh : List GithubEntry) (r1 r2 : String)
    (hkey : j.key = "") :
    (generate_productivity_insights (Store.put σ d₀ ⟨pre ++ j :: post, gh, r1, r2⟩) s e).total_tickets_touched
        = (generate_productivity_insights (Store.put σ d₀ ⟨pre ++ post, gh, r1, r2⟩) s e).total_tickets_touched
    ∧ (generate_productivity_insights (Store.put σ d₀ ⟨pre ++ j :: post, gh, r1, r2⟩) s e).tickets_completed
        = (generate_productivity_insights (Store.put σ d₀ ⟨pre ++ post, gh, r1, r2⟩) s e).tickets_completed
    ∧ (generate_productivity_insights (Store.put σ d₀ ⟨pre ++ j :: post, gh, r1, r2⟩) s e).tickets_in_progress
        = (generate_productivity_insights (Store.put σ d₀ ⟨pre ++ post, gh, r1, r2⟩) s e).tickets_in_progress
    ∧ (generate_productivity_insights (Store.put σ d₀ ⟨pre ++ j :: post, gh, r1, r2⟩) s e).average_days_active
        = (generate_productivity_insights (Store.put σ d₀ ⟨pre ++ post, gh, r1, r2⟩) s e).average_days_active
    ∧ (generate_productivity_insights (Store.put σ d₀ ⟨pre ++ j :: post, gh, r1, r2⟩) s e).project_distribution_percent
        = (generate_productivity_insights (Store.put σ d₀ ⟨pre ++ post, gh, r1, r2⟩) s e).project_distribution_percent
    ∧ (generate_productivity_insights (Store.put σ d₀ ⟨pre ++ j :: post, gh, r1, r2⟩) s e).context_switching_days
        = (generate_productivity_insights (Store.put σ d₀ ⟨pre ++ post, gh, r1, r2⟩) s e).context_switching_days := by
  have hrel : ∀ d ∈ get_dates_in_range s e,
      (List.find? (fun l => l.1 == d)
          (_load_logs_in_range (Store.put σ d₀ ⟨pre ++ j :: post, gh, r1, r2⟩) s e) = none
        ∧ List.find? (fun l => l.1 == d)
          (_load_logs_in_range (Store.put σ d₀ ⟨pre ++ post, gh, r1, r2⟩) s e) = none)
      ∨ (∃ dl₁ dl₂, List.find? (fun l => l.1 == d)
            (_load_logs_in_range (Store.put σ d₀ ⟨pre ++ j :: post, gh, r1, r2⟩) s e) = some dl₁
          ∧ List.find? (fun l => l.1 == d)
            (_load_logs_in_range (Store.put σ d₀ ⟨pre ++ post, gh, r1, r2⟩) s e) = some dl₂
          ∧ dl₁.2.github = dl₂.2.github
          ∧ ∀ acc, dl₁.2.jira.foldl (jiraStep d) acc = dl₂.2.jira.foldl (jiraStep d) acc) := by
    intro d hd
    have hload1 := load_logs_find? (Store.put σ d₀ ⟨pre ++ j :: post, gh, r1, r2⟩)
      (get_dates_in_range s e) d (get_dates_nodup s e) hd
    have hload2 := load_logs_find? (Store.put σ d₀ ⟨pre ++ post, gh, r1, r2⟩)
      (get_dates_in_range s e) d (get_dates_nodup s e) hd
    simp only [_load_logs_in_range]
    by_cases hdd : d = d₀
    · subst hdd
      rw [hload1, hload2, store_get_put_self, store_get_put_self]
      refine Or.inr ⟨_, _, rfl, rfl, rfl, ?_⟩
      intro acc
      exact foldl_jiraStep_keyless d j hkey pre post acc
    · rw [hload1, hload2, store_get_put_ne σ d₀ d _ hdd, store_get_put_ne σ d₀ d _ hdd]
      cases hget : Store.get σ d with
      | none => exact Or.inl ⟨rfl, rfl⟩
      | some log => exact Or.inr ⟨_, _, rfl, rfl, rfl, fun acc => rfl⟩
  have hcore := engine_fold_core
    (_load_logs_in_range (Store.put σ d₀ ⟨pre ++ j :: post, gh, r1, r2⟩) s e)
    (_load_logs_in_range (Store.put σ d₀ ⟨pre ++ post, gh, r1, r2⟩) s e)
    (get_dates_in_range s e) hrel initEngState initEngState rfl
  simp only [coreOf, Prod.mk.injEq] at hcore
  obtain ⟨hc1, hc2, hc3, hc4, hc5, hc6⟩ := hcore
  refine ⟨?_, ?_, ?_, ?_, ?_, ?_⟩
  · exact congrArg List.length hc5
  · exact congrArg (fun dmap => (classifyTickets dmap).1) hc5
  · exact congrArg (fun dmap => (classifyTickets dmap).2.1) hc5
  · exact congrArg (fun dmap => pyRound2
      (if (classifyTickets dmap).2.2.isEmpty then 0
       else ((classifyTickets dmap).2.2.map (fun (t : Int) => (t : ℚ))).sum
          / ((classifyTickets dmap).2.2.length : ℚ))) hc5
  · exact congrArg (fun jp : List (String × Nat) =>
      if (jp.map Prod.snd).sum = 0 then []
      else jp.map (fun p => (p.1, pyRound2 ((p.2 : ℚ)
        / (((jp.map Prod.snd).sum : ℕ) : ℚ) * 100)))) hc4
  · exact congrArg List.length hc6

/-- Witness for C10: one stored day holding a keyless entry next to a normal one,
compared with the same day without the keyless entry, over a one-day range. -/
theorem keyless_issue_entry_skipped_witness :
    (generate_productivity_insights
        (Store.put [] 0 ⟨[⟨"", "s", "", "Open", some "Q"⟩, ⟨"K1", "t", "", "Done", some "P"⟩],
          [], "", ""⟩) 0 0).total_tickets_touched
      = (generate_productivity_insights
          (Store.put [] 0 ⟨[⟨"K1", "t", "", "Done", some "P"⟩], [], "", ""⟩) 0 0).total_tickets_touched
    ∧ (generate_productivity_insights
        (Store.put [] 0 ⟨[⟨"", "s", "", "Open", some "Q"⟩, ⟨"K1", "t", "", "Done", some "P"⟩],
          [], "", ""⟩) 0 0).tickets_completed
      = (generate_productivity_insights
          (Store.put [] 0 ⟨[⟨"K1", "t", "", "Done", some "P"⟩], [], "", ""⟩) 0 0).tickets_completed
    ∧ (generate_productivity_insights
        (Store.put [] 0 ⟨[⟨"", "s", "", "Open", some "Q"⟩, ⟨"K1", "t", "", "Done", some "P"⟩],
          [], "", ""⟩) 0 0).tickets_in_progress
      = (generate_productivity_insights
          (Store.put [] 0 ⟨[⟨"K1", "t", "", "Done", some "P"⟩], [], "", ""⟩) 0 0).tickets_in_progress
    ∧ (generate_productivity_insights
        (Store.put [] 0 ⟨[⟨"", "s", "", "Open", some "Q"⟩, ⟨"K1", "t", "", "Done", some "P"⟩],
          [], "", ""⟩) 0 0).average_days_active
      = (generate_productivity_insights
          (Store.put [] 0 ⟨[⟨"K1", "t", "", "Done", some "P"⟩], [], "", ""⟩) 0 0).average_days_active
    ∧ (generate_productivity_insights
        (Store.put [] 0 ⟨[⟨"", "s", "", "Open", some "Q"⟩, ⟨"K1", "t", "", "Done", some "P"⟩],
          [], "", ""⟩) 0 0).project_distribution_percent
      = (generate_productivity_insights
          (Store.put [] 0 ⟨[⟨"K1", "t", "", "Done", some "P"⟩], [], "", ""⟩) 0 0).project_distribution_percent
    ∧ (generate_productivity_insights
        (Store.put [] 0 ⟨[⟨"", "s", "", "Open", some "Q"⟩, ⟨"K1", "t", "", "Done", some "P"⟩],
          [], "", ""⟩) 0 0).context_switching_days
      = (generate_productivity_insights
          (Store.put [] 0 ⟨[⟨"K1", "t", "", "Done", some "P"⟩], [], "", ""⟩) 0 0).context_switching_days :=
  keyless_issue_entry_skipped [] 0 0 0 [] [⟨"K1", "t", "", "Done", some "P"⟩]
    ⟨"", "s", "", "Open", some "Q"⟩ [] "" "" rfl
